import Mathlib

/-!
# Verification of the krABMaga hypergraph field store and MPI GA coordinator

Shallow embedding of `src/engine/fields/hnetwork.rs` and of the active part of
the `explore_ga_distributed_mpi` macro in `src/explore/mpi/genetic.rs`.

Modelling conventions:
* `hashbrown::HashMap` is modelled as an association list whose keys are kept
  unique by construction: insertion first erases the key, then conses the new
  binding.  `len()` is the list length (the number of distinct keys for maps
  built through these operations).  No code under scrutiny iterates a map, so
  the bucket order of the Rust map is immaterial.
* `std::collections::HashSet<u32>` (the node-id set of a hyper-edge) is
  modelled as a canonically sorted, duplicate-free `List Nat`; set insertion is
  sorted insertion that skips elements already present.  Rust compares hash
  sets extensionally, which coincides with equality of canonical forms.
* `u32` node ids are `Nat` reduced modulo `2 ^ 32` at the one place the code
  narrows a length to `u32` (`add_node`).
* The `.expect(..)` calls in `remove_edge` and `remove_edge_with_hedge` can
  panic; the embedding returns `Except String _`, where `.error` is the panic.
* Rust `HashSet` iteration order is unspecified; `remove_edge_with_hedge`
  iterates the canonical (sorted) node list.  The resulting edge map does not
  depend on the order because distinct ids index disjoint adjacency lists.
-/

namespace KrABMaga

/-! ## Association-list model of `hashbrown::HashMap` -/

/-- A map, as an association list whose keys are unique by construction. -/
abbrev AMap (K V : Type) := List (K × V)

/-- `HashMap::get`. -/
def mget {K V : Type} [DecidableEq K] (m : AMap K V) (k : K) : Option V :=
  match m with
  | [] => none
  | p :: t => if p.1 = k then some p.2 else mget t k

/-- `HashMap::remove` (the remaining map). -/
def mremove {K V : Type} [DecidableEq K] (m : AMap K V) (k : K) : AMap K V :=
  match m with
  | [] => []
  | p :: t => if p.1 = k then mremove t k else p :: mremove t k

/-- `HashMap::insert`: overwrite semantics, keys stay unique. -/
def minsert {K V : Type} [DecidableEq K] (m : AMap K V) (k : K) (v : V) : AMap K V :=
  (k, v) :: mremove m k

/-- `HashMap::len`. -/
def msize {K V : Type} (m : AMap K V) : Nat := m.length

/-! ## Canonical set model of `std::collections::HashSet<u32>` -/

/-- Sorted insertion skipping duplicates: `HashSet::insert` on the canonical
representation. -/
def setInsert (x : Nat) : List Nat → List Nat
  | [] => [x]
  | y :: ys =>
    if x < y then x :: y :: ys
    else if x = y then y :: ys
    else y :: setInsert x ys

/-- The canonical (sorted, duplicate-free) set built from a list of ids, as the
`for n in list_nodes` insertion loop of `HEdge::new` produces it. -/
def canonSet (l : List Nat) : List Nat := l.foldr setInsert []

/-! ## `EdgeOptions`, `HEdge` (src/engine/fields/hnetwork.rs lines 8-75) -/

/-- Available types of an edge/hedge.  The `f32` weight carries no arithmetic
in the store, so its type is a parameter `W`. -/
inductive EdgeOptions (L W : Type) where
  | Simple
  | Labeled (l : L)
  | Weighted (w : W)
  | WeightedLabeled (l : L) (w : W)
deriving DecidableEq

/-- A hyper-edge: a set of node ids plus optional label and weight. -/
structure HEdge (L W : Type) where
  nodes : List Nat
  label : Option L
  weight : Option W
deriving DecidableEq

/-- `HEdge::new`: build the node set from the endpoint-id list, dedup via set
insertion, and attach label/weight according to the options. -/
def HEdge.new {L W : Type} (list_nodes : List Nat) (edge_options : EdgeOptions L W) :
    HEdge L W :=
  match edge_options with
  | .Simple => { nodes := canonSet list_nodes, label := none, weight := none }
  | .Labeled l => { nodes := canonSet list_nodes, label := some l, weight := none }
  | .Weighted w => { nodes := canonSet list_nodes, label := none, weight := some w }
  | .WeightedLabeled l w =>
      { nodes := canonSet list_nodes, label := some l, weight := some w }

/-- The Rust `PartialEq` for `HEdge` compares the node sets only; on canonical
forms this is equality of the `nodes` component. -/
def hedgeEq {L W : Type} (a b : HEdge L W) : Bool := decide (a.nodes = b.nodes)

/-! ## `HNetwork` state (src/engine/fields/hnetwork.rs lines 77-101) -/

/-- The five `RefCell` fields of `HNetwork`. -/
structure HNetwork (O L W : Type) where
  /-- Write state of hyper-edges. -/
  edges : AMap Nat (List (HEdge L W))
  /-- Read state of hyper-edges. -/
  redges : AMap Nat (List (HEdge L W))
  /-- Write state to manage ids using Nodes. -/
  nodes2id : AMap O Nat
  /-- Write state to manage Nodes using ids. -/
  id2nodes : AMap Nat O
  /-- Read state to manage Nodes using ids. -/
  rid2nodes : AMap Nat O

/-- `HNetwork::new`. -/
def HNetwork.new {O L W : Type} : HNetwork O L W :=
  { edges := [], redges := [], nodes2id := [], id2nodes := [], rid2nodes := [] }

/-- The id-translation loop shared by `add_edge`, `get_edge` and `remove_edge`:
look every endpoint up in `nodes2id`, failing as soon as one is unregistered. -/
def lookupIds {O : Type} [DecidableEq O] (m : AMap O Nat) : List O → Option (List Nat)
  | [] => some []
  | n :: ns =>
    match mget m n with
    | some v => (lookupIds m ns).map (fun ids => v :: ids)
    | none => none

/-- One `edges.get_mut(id) / push` step of the `add_edge` loop. -/
def pushEdge {L W : Type} (es : AMap Nat (List (HEdge L W))) (h : HEdge L W)
    (id : Nat) : AMap Nat (List (HEdge L W)) :=
  match mget es id with
  | some uedges => minsert es id (uedges ++ [h])
  | none => minsert es id [h]

/-- `HNetwork::add_edge` (lines 108-139): returns the `bool` result and the
new store. -/
def HNetwork.add_edge {O L W : Type} [DecidableEq O] (s : HNetwork O L W)
    (nodes : List O) (edge_options : EdgeOptions L W) : Bool × HNetwork O L W :=
  if nodes.isEmpty then (false, s)
  else
    match lookupIds s.nodes2id nodes with
    | none => (false, s)
    | some ids =>
      (true,
        { s with
          edges := ids.foldl (fun es id => pushEdge es (HEdge.new ids edge_options) id)
            s.edges })

/-- `HNetwork::add_node` (lines 142-157). -/
def HNetwork.add_node {O L W : Type} [DecidableEq O] (s : HNetwork O L W) (u : O) :
    HNetwork O L W :=
  let uid := msize s.nodes2id % 2 ^ 32
  { s with
    nodes2id := minsert s.nodes2id u uid
    id2nodes := minsert s.id2nodes uid u
    edges :=
      match mget s.edges uid with
      | some _ => s.edges
      | none => minsert s.edges uid [] }

/-- `HNetwork::get_edge` (lines 160-188): reads the read generation `redges`,
translating endpoints through `nodes2id`. -/
def HNetwork.get_edge {O L W : Type} [DecidableEq O] (s : HNetwork O L W)
    (nodes : List O) : Option (HEdge L W) :=
  if nodes.isEmpty then none
  else
    match lookupIds s.nodes2id nodes with
    | none => none
    | some [] => none
    | some (i0 :: rest) =>
      match mget s.redges i0 with
      | some uedges =>
        uedges.find?
          (fun e => hedgeEq e (HEdge.new (i0 :: rest) (EdgeOptions.Simple : EdgeOptions L W)))
      | none => none

/-- `HNetwork::get_edges` (lines 191-199): the read-generation adjacency list. -/
def HNetwork.get_edges {O L W : Type} [DecidableEq O] (s : HNetwork O L W) (u : O) :
    Option (List (HEdge L W)) :=
  match mget s.nodes2id u with
  | some uid => mget s.redges uid
  | none => none

/-- `HNetwork::get_object` (lines 202-204): reads the read generation
`rid2nodes`. -/
def HNetwork.get_object {O L W : Type} [DecidableEq O] (s : HNetwork O L W)
    (uid : Nat) : Option O :=
  mget s.rid2nodes uid

/-- `HNetwork::remove_all_edges` (lines 207-210): clears the write generation. -/
def HNetwork.remove_all_edges {O L W : Type} (s : HNetwork O L W) : HNetwork O L W :=
  { s with edges := [] }

/-- Locate the position of the first element satisfying `p` and remove it,
returning the removed element and the remainder (the
`position / remove(index)` idiom of lines 236-243). -/
def removeFirst {α : Type} (p : α → Bool) : List α → Option (α × List α)
  | [] => none
  | x :: xs =>
    if p x then some (x, xs)
    else (removeFirst p xs).map (fun r => (r.1, x :: r.2))

/-- The `for id in ids` removal loop shared by `remove_edge` and
`remove_edge_with_hedge`: threading the latest removed edge and the edge map,
panicking (`.error`) when an id has no entry, exactly as
`all_edges.get_mut(&id).expect("error on get_mut of all_edges")` does. -/
def removeEdgeLoop {L W : Type} (to_remove : HEdge L W) :
    List Nat → Option (HEdge L W) × AMap Nat (List (HEdge L W)) →
    Except String (Option (HEdge L W) × AMap Nat (List (HEdge L W)))
  | [], acc => .ok acc
  | id :: ids, (removed, all_edges) =>
    match mget all_edges id with
    | none => .error "error on get_mut of all_edges"
    | some edges =>
      match removeFirst (fun e => hedgeEq e to_remove) edges with
      | some r => removeEdgeLoop to_remove ids (some r.1, minsert all_edges id r.2)
      | none => removeEdgeLoop to_remove ids (removed, all_edges)

/-- `HNetwork::remove_edge` (lines 213-247). -/
def HNetwork.remove_edge {O L W : Type} [DecidableEq O] (s : HNetwork O L W)
    (nodes : List O) : Except String (Option (HEdge L W) × HNetwork O L W) :=
  if nodes.isEmpty then .ok (none, s)
  else
    match lookupIds s.nodes2id nodes with
    | none => .ok (none, s)
    | some ids =>
      (removeEdgeLoop (HEdge.new ids (EdgeOptions.Simple : EdgeOptions L W)) ids
          (none, s.edges)).map
        (fun r => (r.1, { s with edges := r.2 }))

/-- `HNetwork::remove_edge_with_hedge` (lines 250-270), restricted to the edge
map it mutates; iterates the node set of the edge to remove. -/
def removeEdgeWithHedge {L W : Type} (all_edges : AMap Nat (List (HEdge L W)))
    (to_remove : HEdge L W) :
    Except String (Option (HEdge L W) × AMap Nat (List (HEdge L W))) :=
  removeEdgeLoop to_remove to_remove.nodes (none, all_edges)

/-- The `for hedge in to_remove` cascade of `remove_object` (lines 283-287),
aborting at the first panic. -/
def removeEdgesCascade {L W : Type} :
    List (HEdge L W) → AMap Nat (List (HEdge L W)) →
    Except String (AMap Nat (List (HEdge L W)))
  | [], es => .ok es
  | h :: hs, es =>
    match removeEdgeWithHedge es h with
    | .ok r => removeEdgesCascade hs r.2
    | .error msg => .error msg

/-- `HNetwork::remove_object` (lines 273-295).  Note that the edges to cascade
over come from `get_edges`, i.e. from the published read generation. -/
def HNetwork.remove_object {O L W : Type} [DecidableEq O] (s : HNetwork O L W)
    (u : O) : Except String (Bool × HNetwork O L W) :=
  match mget s.nodes2id u with
  | none => .ok (false, s)
  | some uid =>
    let afterEdges : Except String (AMap Nat (List (HEdge L W))) :=
      match s.get_edges u with
      | some to_remove => removeEdgesCascade to_remove s.edges
      | none => .ok s.edges
    afterEdges.map
      (fun es =>
        (true,
          { s with
            edges := es
            id2nodes := mremove s.id2nodes uid
            nodes2id := mremove s.nodes2id u }))

/-- `HNetwork::update_node` (lines 298-308). -/
def HNetwork.update_node {O L W : Type} [DecidableEq O] (s : HNetwork O L W)
    (u : O) : HNetwork O L W :=
  match mget s.nodes2id u with
  | none => s
  | some uid =>
    match mget s.id2nodes uid with
    | some _ => { s with id2nodes := minsert s.id2nodes uid u }
    | none => s

/-- `Field::update` for `HNetwork` (lines 318-327): publish the write
generation wholesale. -/
def HNetwork.update {O L W : Type} (s : HNetwork O L W) : HNetwork O L W :=
  { s with redges := s.edges, rid2nodes := s.id2nodes }

/-- `Field::lazy_update` for `HNetwork` (lines 329-338): identical publish. -/
def HNetwork.lazy_update {O L W : Type} (s : HNetwork O L W) : HNetwork O L W :=
  { s with redges := s.edges, rid2nodes := s.id2nodes }

/-- Extract the state from a non-panicking store operation, with a default for
the panic case (used only to state concrete evaluations). -/
def okStateD {α σ : Type} (d : σ) : Except String (α × σ) → σ
  | .ok r => r.2
  | .error _ => d

/-! ## The active part of `explore_ga_distributed_mpi`
(src/explore/mpi/genetic.rs)

In the source, the macro body opens `loop {` on line 122 and the matching
closing brace is on line 215; lines 216-388 (local evaluation, gather of
results, best-individual bookkeeping, flag broadcast, selection / mutation /
crossover) sit inside a `/* ... */` block comment and are not part of the
compiled macro expansion.  The active loop body therefore consists only of the
two exit checks, the `generation` increment and the root dispatch / worker
receive section (lines 124-215). -/

/-- The inner shard-size loop of the root dispatch (lines 149-165):
`base = population_size / num_procs`, one extra element while
`remainder > 0`. -/
def shardSizesAux (base : Nat) : Nat → Nat → List Nat
  | 0, _ => []
  | p + 1, rem =>
    if 0 < rem then (base + 1) :: shardSizesAux base p (rem - 1)
    else base :: shardSizesAux base p rem

/-- The `samples_count` vector computed by the root for population size `n`
and `p` processes. -/
def shardSizes (populationSize numProcs : Nat) : List Nat :=
  shardSizesAux (populationSize / numProcs) numProcs (populationSize % numProcs)

/-- The population indices the root pushes for process `i`
(line 174: `population[i * population_size_per_process + j]` for
`j` in `0..sub_population_size`). -/
def shardIndices (populationSize numProcs i : Nat) : List Nat :=
  (List.range ((shardSizes populationSize numProcs).getD i 0)).map
    (fun j => i * (populationSize / numProcs) + j)

/-- The per-process lists of population indices the dispatch phase sends. -/
def dispatchIndices (populationSize numProcs : Nat) : List (List Nat) :=
  (List.range numProcs).map (shardIndices populationSize numProcs)

/-- Modelled from the spec: the DISPATCH contract of section 4.3 says the
population is split into contiguous, order-preserving shards, so shard `i`
starts at the exclusive prefix sum of the preceding shard sizes.  Stated here
only to compare with `dispatchIndices`, which is translated from the code. -/
def specDispatchIndices (populationSize numProcs : Nat) : List (List Nat) :=
  (List.range numProcs).map
    (fun i =>
      (List.range ((shardSizes populationSize numProcs).getD i 0)).map
        (fun j => ((shardSizes populationSize numProcs).take i).sum + j))

/-- The loop variables of the active generational loop that govern
termination and the best-ever record: `generation`, `flag` (initialized
`false` on line 105 and never assigned in the active region) and
`best_generation` (initialized `0` on line 76 and only assigned inside the
commented-out region). -/
structure GAState where
  generation : Nat
  flag : Bool
  bestGeneration : Nat
deriving DecidableEq

/-- One pass through the active loop body after the exit checks: only
`generation` changes (line 138); the dispatch section writes no termination
state. -/
def gaStep (s : GAState) : GAState := { s with generation := s.generation + 1 }

/-- The active generational loop (lines 122-215): exit when the generation cap
is reached (`generation_num != 0 && generation == generation_num`) or when
`flag` is set; otherwise increment `generation` and dispatch.  `fuel` bounds
the iteration count; `none` means the loop was still running. -/
def gaLoop (generationNum : Nat) : Nat → GAState → Option GAState
  | 0, _ => none
  | fuel + 1, s =>
    if generationNum ≠ 0 ∧ s.generation = generationNum then some s
    else if s.flag then some s
    else gaLoop generationNum fuel (gaStep s)

/-! ## Concrete scenario states used in counterexamples and evaluations -/

/-- Two nodes `10` (id 0) and `20` (id 1), one hyper-edge between them,
published: the store a reader of the last publish observes. -/
def netAB : HNetwork Nat Unit Unit :=
  ((((HNetwork.new : HNetwork Nat Unit Unit).add_node 10).add_node 20).add_edge
      [10, 20] EdgeOptions.Simple).2.update

/-- One node `7` (id 0) with a self-loop hyper-edge, published. -/
def netSelf : HNetwork Nat Unit Unit :=
  (((HNetwork.new : HNetwork Nat Unit Unit).add_node 7).add_edge
      [7] EdgeOptions.Simple).2.update

/-- `netSelf` after `remove_object 7`: id 0 is unbound again but the stale
read generation still holds the published self-loop. -/
def netSelfRemoved : HNetwork Nat Unit Unit :=
  okStateD netSelf (netSelf.remove_object 7)

/-- Two registered nodes and one fresh (never published) hyper-edge. -/
def c3net : HNetwork Nat Unit Unit :=
  ((((HNetwork.new : HNetwork Nat Unit Unit).add_node 10).add_node 20).add_edge
      [10, 20] EdgeOptions.Simple).2

/-- `c3net` after `remove_object 10` and a publish. -/
def c3final : HNetwork Nat Unit Unit :=
  (okStateD c3net (c3net.remove_object 10)).update

/-- Register `10` and `20`, remove `10`, register `30`: the id-assignment
scheme `uid = nodes2id.len()` now hands out id 1 a second time. -/
def c5net : HNetwork Nat Unit Unit :=
  (okStateD (((HNetwork.new : HNetwork Nat Unit Unit).add_node 10).add_node 20)
      ((((HNetwork.new : HNetwork Nat Unit Unit).add_node 10).add_node 20).remove_object 10)).add_node
    30

/-- One registered node, then `remove_all_edges`: the write generation no
longer has an entry for id 0 although node `10` is still registered. -/
def c9net : HNetwork Nat Unit Unit :=
  ((HNetwork.new : HNetwork Nat Unit Unit).add_node 10).remove_all_edges

/-! # Lemmas -/

/-! ## Map lemmas -/

theorem mget_mremove {K V : Type} [DecidableEq K] (m : AMap K V) (k k2 : K) :
    mget (mremove m k) k2 = if k2 = k then none else mget m k2 := by
  induction m with
  | nil => simp [mget, mremove]
  | cons p t ih =>
    by_cases h1 : p.1 = k
    · by_cases h2 : k2 = k
      · subst h2
        simp [mremove, h1, ih]
      · have h3 : ¬ p.1 = k2 := fun h => h2 (h.symm.trans h1)
        have h4 : ¬ k = k2 := fun h => h2 h.symm
        simp [mremove, mget, h1, h2, h3, h4, ih]
    · by_cases h2 : p.1 = k2
      · have h3 : ¬ k2 = k := fun h => h1 (h2.trans h)
        simp [mget, mremove, h1, h2, h3]
      · simp [mget, mremove, h1, h2, ih]

theorem mget_minsert {K V : Type} [DecidableEq K] (m : AMap K V) (k k2 : K) (v : V) :
    mget (minsert m k v) k2 = if k2 = k then some v else mget m k2 := by
  by_cases h : k2 = k
  · simp [minsert, mget, h]
  · have h2 : ¬ k = k2 := fun h3 => h h3.symm
    simp [minsert, mget, h2, mget_mremove, h]

theorem mget_minsert_self {K V : Type} [DecidableEq K] (m : AMap K V) (k : K) (v : V) :
    mget (minsert m k v) k = some v := by
  simp [mget_minsert]

theorem mremove_eq_self {K V : Type} [DecidableEq K] {m : AMap K V} {k : K}
    (h : k ∉ m.map Prod.fst) : mremove m k = m := by
  induction m with
  | nil => rfl
  | cons p t ih =>
    simp only [List.map_cons, List.mem_cons] at h
    push_neg at h
    have h1 : ¬ p.1 = k := fun h2 => h.1 h2.symm
    simp [mremove, h1, ih h.2]

/-- On a map whose keys are unique, `mget` agrees with membership. -/
theorem mget_eq_some_iff_mem {K V : Type} [DecidableEq K] {m : AMap K V}
    (hnd : (m.map Prod.fst).Nodup) (k : K) (v : V) :
    mget m k = some v ↔ (k, v) ∈ m := by
  induction m with
  | nil => simp [mget]
  | cons p t ih =>
    obtain ⟨a, b⟩ := p
    simp only [List.map_cons, List.nodup_cons] at hnd
    by_cases h1 : a = k
    · subst h1
      simp only [mget, eq_self_iff_true, if_true, List.mem_cons, Option.some.injEq,
        Prod.mk.injEq, true_and]
      constructor
      · intro h2
        exact Or.inl h2.symm
      · rintro (h2 | h2)
        · exact h2.symm
        · exact absurd (List.mem_map_of_mem Prod.fst h2) hnd.1
    · simp only [mget, if_neg h1, List.mem_cons, Prod.mk.injEq, ih hnd.2]
      constructor
      · exact Or.inr
      · rintro (⟨h3, -⟩ | h3)
        · exact absurd h3.symm h1
        · exact h3

/-! ## Canonical set lemmas -/

theorem canonSet_cons (x : Nat) (l : List Nat) :
    canonSet (x :: l) = setInsert x (canonSet l) := rfl

theorem mem_setInsert (x y : Nat) (s : List Nat) :
    x ∈ setInsert y s ↔ x = y ∨ x ∈ s := by
  induction s with
  | nil => simp [setInsert]
  | cons z zs ih =>
    by_cases h1 : y < z
    · simp [setInsert, h1]
    · by_cases h2 : y = z
      · subst h2
        have hred : setInsert y (y :: zs) = y :: zs := by
          simp [setInsert]
        rw [hred]
        simp only [List.mem_cons]
        tauto
      · simp only [setInsert, if_neg h1, if_neg h2, List.mem_cons, ih]
        tauto

theorem mem_canonSet (x : Nat) (l : List Nat) : x ∈ canonSet l ↔ x ∈ l := by
  induction l with
  | nil => simp [canonSet]
  | cons y ys ih => simp [canonSet_cons, mem_setInsert, ih]

theorem setInsert_pairwise {s : List Nat} (x : Nat)
    (h : s.Pairwise (· < ·)) : (setInsert x s).Pairwise (· < ·) := by
  induction s with
  | nil => simp [setInsert]
  | cons z zs ih =>
    rw [List.pairwise_cons] at h
    by_cases h1 : x < z
    · simp only [setInsert, if_pos h1]
      refine List.pairwise_cons.2 ⟨?_, List.pairwise_cons.2 h⟩
      intro a ha
      rcases List.mem_cons.1 ha with h2 | h2
      · subst h2; exact h1
      · exact h1.trans (h.1 a h2)
    · by_cases h2 : x = z
      · simp only [setInsert, if_neg h1, if_pos h2]
        exact List.pairwise_cons.2 h
      · have h3 : z < x := by omega
        simp only [setInsert, if_neg h1, if_neg h2]
        refine List.pairwise_cons.2 ⟨?_, ih h.2⟩
        intro a ha
        rcases (mem_setInsert a x zs).1 ha with h4 | h4
        · subst h4; exact h3
        · exact h.1 a h4

theorem canonSet_pairwise (l : List Nat) : (canonSet l).Pairwise (· < ·) := by
  induction l with
  | nil => simp [canonSet]
  | cons y ys ih => exact setInsert_pairwise y ih

theorem canonSet_nodup (l : List Nat) : (canonSet l).Nodup :=
  (canonSet_pairwise l).imp Nat.ne_of_lt

theorem setInsert_comm_lt {x y : Nat} (hxy : x < y) (s : List Nat) :
    setInsert x (setInsert y s) = setInsert y (setInsert x s) := by
  have cyx : ¬ y < x := by omega
  have cyex : ¬ y = x := by omega
  induction s with
  | nil =>
    simp [setInsert, hxy, cyx, cyex]
  | cons z zs ih =>
    rcases Nat.lt_trichotomy z x with hzx | hzx | hzx
    · have c1 : ¬ x < z := by omega
      have c2 : ¬ x = z := by omega
      have c3 : ¬ y < z := by omega
      have c4 : ¬ y = z := by omega
      simp [setInsert, c1, c2, c3, c4, ih]
    · subst hzx
      have c1 : ¬ y < z := by omega
      have c2 : ¬ y = z := by omega
      simp [setInsert, Nat.lt_irrefl, hxy, c1, c2]
    · rcases Nat.lt_trichotomy z y with hzy | hzy | hzy
      · have c1 : ¬ y < z := by omega
        have c2 : ¬ y = z := by omega
        simp [setInsert, hzx, c1, c2, cyx, cyex]
      · subst hzy
        simp [setInsert, Nat.lt_irrefl, hzx, hxy, cyx, cyex]
      · have c1 : x < z := by omega
        simp [setInsert, hzx, hzy, c1, hxy, cyx, cyex]

theorem setInsert_comm (x y : Nat) (s : List Nat) :
    setInsert x (setInsert y s) = setInsert y (setInsert x s) := by
  rcases Nat.lt_trichotomy x y with h | h | h
  · exact setInsert_comm_lt h s
  · subst h; rfl
  · exact (setInsert_comm_lt h s).symm

theorem canonSet_perm {l1 l2 : List Nat} (h : l1.Perm l2) :
    canonSet l1 = canonSet l2 := by
  induction h with
  | nil => rfl
  | cons x _ ih => rw [canonSet_cons, canonSet_cons, ih]
  | swap x y t =>
    rw [canonSet_cons, canonSet_cons, canonSet_cons, canonSet_cons, setInsert_comm]
  | trans _ _ ih1 ih2 => rw [ih1, ih2]

/-! ## Which fields each mutator touches -/

theorem add_node_frame {O L W : Type} [DecidableEq O] (s : HNetwork O L W) (u : O) :
    (s.add_node u).redges = s.redges ∧ (s.add_node u).rid2nodes = s.rid2nodes :=
  ⟨rfl, rfl⟩

theorem add_edge_frame {O L W : Type} [DecidableEq O] (s : HNetwork O L W)
    (ns : List O) (opts : EdgeOptions L W) :
    ((s.add_edge ns opts).2).nodes2id = s.nodes2id ∧
      ((s.add_edge ns opts).2).redges = s.redges ∧
      ((s.add_edge ns opts).2).rid2nodes = s.rid2nodes ∧
      ((s.add_edge ns opts).2).id2nodes = s.id2nodes := by
  unfold HNetwork.add_edge
  cases hb : ns.isEmpty
  · simp only [Bool.false_eq_true, if_false]
    cases hl : lookupIds s.nodes2id ns <;> exact ⟨rfl, rfl, rfl, rfl⟩
  · exact ⟨rfl, rfl, rfl, rfl⟩

theorem update_node_frame {O L W : Type} [DecidableEq O] (s : HNetwork O L W) (u : O) :
    (s.update_node u).nodes2id = s.nodes2id ∧
      (s.update_node u).redges = s.redges ∧
      (s.update_node u).rid2nodes = s.rid2nodes ∧
      (s.update_node u).edges = s.edges := by
  cases hl : mget s.nodes2id u with
  | none => simp [HNetwork.update_node, hl]
  | some uid =>
    cases hg : mget s.id2nodes uid with
    | none => simp [HNetwork.update_node, hl, hg]
    | some w2 => simp [HNetwork.update_node, hl, hg]

theorem remove_all_edges_frame {O L W : Type} (s : HNetwork O L W) :
    (s.remove_all_edges).nodes2id = s.nodes2id ∧
      (s.remove_all_edges).redges = s.redges ∧
      (s.remove_all_edges).rid2nodes = s.rid2nodes ∧
      (s.remove_all_edges).id2nodes = s.id2nodes :=
  ⟨rfl, rfl, rfl, rfl⟩

theorem remove_edge_ok_frame {O L W : Type} [DecidableEq O] {s : HNetwork O L W}
    {ns : List O} {r : Option (HEdge L W)} {s1 : HNetwork O L W}
    (h : s.remove_edge ns = .ok (r, s1)) :
    s1.nodes2id = s.nodes2id ∧ s1.redges = s.redges ∧ s1.rid2nodes = s.rid2nodes := by
  unfold HNetwork.remove_edge at h
  split at h
  · simp only [Except.ok.injEq, Prod.mk.injEq] at h
    obtain ⟨-, h2⟩ := h
    subst h2
    exact ⟨rfl, rfl, rfl⟩
  · split at h
    · simp only [Except.ok.injEq, Prod.mk.injEq] at h
      obtain ⟨-, h2⟩ := h
      subst h2
      exact ⟨rfl, rfl, rfl⟩
    · rename_i ids heq
      cases hres : removeEdgeLoop (HEdge.new ids (EdgeOptions.Simple : EdgeOptions L W))
          ids (none, s.edges) with
      | error e =>
        rw [hres] at h
        simp [Except.map] at h
      | ok pr =>
        rw [hres] at h
        simp only [Except.map, Except.ok.injEq, Prod.mk.injEq] at h
        obtain ⟨-, h2⟩ := h
        subst h2
        exact ⟨rfl, rfl, rfl⟩

theorem remove_object_ok_frame {O L W : Type} [DecidableEq O] {s : HNetwork O L W}
    {u : O} {b : Bool} {s1 : HNetwork O L W}
    (h : s.remove_object u = .ok (b, s1)) :
    s1.redges = s.redges ∧ s1.rid2nodes = s.rid2nodes := by
  simp only [HNetwork.remove_object] at h
  split at h
  · simp only [Except.ok.injEq, Prod.mk.injEq] at h
    obtain ⟨-, h2⟩ := h
    subst h2
    exact ⟨rfl, rfl⟩
  · split at h
    · rename_i to_remove heq
      cases hc : removeEdgesCascade to_remove s.edges with
      | error e =>
        rw [hc] at h
        simp [Except.map] at h
      | ok es =>
        rw [hc] at h
        simp only [Except.map, Except.ok.injEq, Prod.mk.injEq] at h
        obtain ⟨-, h2⟩ := h
        subst h2
        exact ⟨rfl, rfl⟩
    · simp only [Except.map, Except.ok.injEq, Prod.mk.injEq] at h
      obtain ⟨-, h2⟩ := h
      subst h2
      exact ⟨rfl, rfl⟩

/-! ## Readers depend only on the fields they consult -/

theorem get_edge_congr {O L W : Type} [DecidableEq O] {s1 s2 : HNetwork O L W}
    (h1 : s1.nodes2id = s2.nodes2id) (h2 : s1.redges = s2.redges) (qs : List O) :
    s1.get_edge qs = s2.get_edge qs := by
  unfold HNetwork.get_edge
  rw [h1, h2]

theorem get_edges_congr {O L W : Type} [DecidableEq O] {s1 s2 : HNetwork O L W}
    (h1 : s1.nodes2id = s2.nodes2id) (h2 : s1.redges = s2.redges) (u : O) :
    s1.get_edges u = s2.get_edges u := by
  unfold HNetwork.get_edges
  rw [h1, h2]

theorem get_object_congr {O L W : Type} [DecidableEq O] {s1 s2 : HNetwork O L W}
    (h : s1.rid2nodes = s2.rid2nodes) (uid : Nat) :
    s1.get_object uid = s2.get_object uid := by
  unfold HNetwork.get_object
  rw [h]

/-! ## The id-translation loop -/

theorem lookupIds_some_map {O : Type} [DecidableEq O] {m : AMap O Nat} :
    ∀ {l : List O} {ids : List Nat}, lookupIds m l = some ids →
      ids = l.map (fun x => (mget m x).getD 0) := by
  intro l
  induction l with
  | nil =>
    intro ids h
    simp only [lookupIds, Option.some.injEq] at h
    simp [← h]
  | cons n ns ih =>
    intro ids h
    cases hg : mget m n <;> rw [lookupIds, hg] at h
    · exact absurd h (by simp)
    · cases hr : lookupIds m ns <;> rw [hr] at h
      · exact absurd h (by simp)
      · simp only [Option.map, Option.some.injEq] at h
        subst h
        simp [hg, ih hr]

theorem lookupIds_some_isSome {O : Type} [DecidableEq O] {m : AMap O Nat} :
    ∀ {l : List O} {ids : List Nat}, lookupIds m l = some ids →
      ∀ x ∈ l, (mget m x).isSome := by
  intro l
  induction l with
  | nil => intro ids _ x hx; exact absurd hx (List.not_mem_nil x)
  | cons n ns ih =>
    intro ids h x hx
    cases hg : mget m n <;> rw [lookupIds, hg] at h
    · exact absurd h (by simp)
    · cases hr : lookupIds m ns <;> rw [hr] at h
      · exact absurd h (by simp)
      · rcases List.mem_cons.1 hx with h2 | h2
        · subst h2; simp [hg]
        · exact ih hr x h2

theorem lookupIds_of_isSome {O : Type} [DecidableEq O] {m : AMap O Nat} :
    ∀ {l : List O}, (∀ x ∈ l, (mget m x).isSome) →
      lookupIds m l = some (l.map (fun x => (mget m x).getD 0)) := by
  intro l
  induction l with
  | nil => intro _; rfl
  | cons n ns ih =>
    intro hall
    have hn := hall n (List.mem_cons_self n ns)
    obtain ⟨v, hv⟩ := Option.isSome_iff_exists.1 hn
    rw [lookupIds, hv, ih (fun x hx => hall x (List.mem_cons_of_mem n hx))]
    simp [hv]

/-! ## The `add_edge` push loop -/

theorem mgetD_pushEdge {L W : Type} (es : AMap Nat (List (HEdge L W)))
    (h : HEdge L W) (a id : Nat) :
    (mget (pushEdge es h a) id).getD [] =
      if id = a then (mget es id).getD [] ++ [h] else (mget es id).getD [] := by
  by_cases hid : id = a
  · subst hid
    unfold pushEdge
    cases hg : mget es id <;> simp [hg, mget_minsert]
  · unfold pushEdge
    cases hg : mget es a <;> simp [hg, mget_minsert, hid]

theorem mgetD_foldl_pushEdge {L W : Type} (h : HEdge L W) :
    ∀ (l : List Nat) (es : AMap Nat (List (HEdge L W))) (id : Nat),
      (mget (l.foldl (fun es2 a => pushEdge es2 h a) es) id).getD [] =
        (mget es id).getD [] ++ List.replicate (l.count id) h := by
  intro l
  induction l with
  | nil => intro es id; simp
  | cons a t ih =>
    intro es id
    simp only [List.foldl_cons]
    rw [ih, mgetD_pushEdge]
    by_cases hid : id = a
    · subst hid
      simp [List.count_cons, List.append_assoc, List.replicate_succ,
        List.singleton_append]
    · simp [if_neg hid, List.count_cons, beq_iff_eq, hid]

/-! # Claims -/

/-- The dispatch size loop yields `rem` shards of `base + 1` followed by
`p - rem` shards of `base`. -/
theorem shardSizesAux_eq {base : Nat} :
    ∀ {p rem : Nat}, rem ≤ p →
      shardSizesAux base p rem =
        List.replicate rem (base + 1) ++ List.replicate (p - rem) base := by
  intro p
  induction p with
  | zero =>
    intro rem h
    have h0 : rem = 0 := Nat.le_zero.1 h
    subst h0
    rfl
  | succ q ih =>
    intro rem h
    by_cases h0 : 0 < rem
    · obtain ⟨r2, rfl⟩ : ∃ r2, rem = r2 + 1 := ⟨rem - 1, by omega⟩
      rw [shardSizesAux, if_pos h0, ih (by omega)]
      simp only [Nat.add_sub_cancel]
      rw [List.replicate_succ, List.cons_append,
        show q + 1 - (r2 + 1) = q - r2 from by omega]
    · have h1 : rem = 0 := by omega
      subst h1
      rw [shardSizesAux, if_neg h0, ih (by omega)]
      simp [List.replicate_succ]

/-- The node set stored by `HEdge::new` is the canonical set of the id
list, whatever the options. -/
theorem HEdge_new_nodes {L W : Type} (l : List Nat) (opts : EdgeOptions L W) :
    (HEdge.new l opts).nodes = canonSet l := by
  cases opts <;> rfl

/-- Reduction of a successful `add_edge`. -/
theorem add_edge_eq_of_some {O L W : Type} [DecidableEq O] {s : HNetwork O L W}
    {ns : List O} {ids : List Nat} {opts : EdgeOptions L W}
    (hb : ns.isEmpty = false) (hreg : lookupIds s.nodes2id ns = some ids) :
    s.add_edge ns opts =
      (true,
        { s with
          edges := ids.foldl (fun es id => pushEdge es (HEdge.new ids opts) id)
            s.edges }) := by
  unfold HNetwork.add_edge
  simp only [hb, Bool.false_eq_true, if_false, hreg]

/-- **C7** (confirmed).  For every population size `N` and process count
`P ≥ 1`, the shard sizes computed by the dispatch phase are exactly
`N mod P` shards of size `N / P + 1` followed by `P - N mod P` shards of
size `N / P` (so exactly the first `N mod P` shards are larger), they sum
to `N`, no two differ by more than 1, and `N = 7, P = 3` yields `[3, 2, 2]`
in that order. -/
theorem C7_shard_sizes (N P : Nat) (hP : 1 ≤ P) :
    shardSizes N P =
        List.replicate (N % P) (N / P + 1) ++ List.replicate (P - N % P) (N / P) ∧
      (shardSizes N P).sum = N ∧
      (∀ a ∈ shardSizes N P, ∀ b ∈ shardSizes N P, a ≤ b + 1) ∧
      shardSizes 7 3 = [3, 2, 2] := by
  have hlt : N % P < P := Nat.mod_lt _ (by omega)
  have hchar : shardSizes N P =
      List.replicate (N % P) (N / P + 1) ++ List.replicate (P - N % P) (N / P) :=
    shardSizesAux_eq (le_of_lt hlt)
  refine ⟨hchar, ?_, ?_, by decide⟩
  · rw [hchar, List.sum_append, List.sum_replicate, List.sum_replicate]
    simp only [smul_eq_mul]
    have hdm := Nat.div_add_mod N P
    have e1 : (N % P) * (N / P + 1) = (N % P) * (N / P) + (N % P) := by ring
    have e2 : (P - N % P) * (N / P) = P * (N / P) - (N % P) * (N / P) :=
      Nat.sub_mul P (N % P) (N / P)
    have e3 : (N % P) * (N / P) ≤ P * (N / P) :=
      Nat.mul_le_mul_right _ (le_of_lt hlt)
    rw [e1, e2]
    generalize hA : (N % P) * (N / P) = A at e3 ⊢
    generalize hB : P * (N / P) = B at e3 hdm ⊢
    generalize hr : N % P = r at hlt hdm ⊢
    omega
  · intro a ha b hb
    rw [hchar] at ha hb
    rcases List.mem_append.1 ha with h1 | h1 <;> rcases List.mem_append.1 hb with h2 | h2 <;>
      rw [List.eq_of_mem_replicate h1, List.eq_of_mem_replicate h2] <;> omega

/-- **C7, witness** at `N = 7`, `P = 3`. -/
theorem C7_shard_sizes_witness :
    (shardSizes 7 3).sum = 7 ∧ shardSizes 7 3 = [3, 2, 2] :=
  ⟨(C7_shard_sizes 7 3 (by norm_num)).2.1, (C7_shard_sizes 7 3 (by norm_num)).2.2.2⟩

/-- **C10** (confirmed).  If the endpoint list resolves to ids `ids` (all
endpoints registered) and is nonempty, `add_edge` returns `true`, the stored
hyper-edge node set is the deduplicated set of `ids`, and every id receives
one appended copy of the edge per occurrence in `ids` - so an endpoint
occurring twice holds two physical copies of the one edge. -/
theorem C10_duplicate_endpoints {O L W : Type} [DecidableEq O]
    (s : HNetwork O L W) (ns : List O) (ids : List Nat) (opts : EdgeOptions L W)
    (hne : ns ≠ []) (hdup : ¬ ns.Nodup)
    (hreg : lookupIds s.nodes2id ns = some ids) :
    (s.add_edge ns opts).1 = true ∧
      (HEdge.new ids opts).nodes.Nodup ∧
      (∀ x, x ∈ (HEdge.new ids opts).nodes ↔ x ∈ ids) ∧
      ∀ id : Nat,
        (mget ((s.add_edge ns opts).2).edges id).getD [] =
          (mget s.edges id).getD [] ++
            List.replicate (ids.count id) (HEdge.new ids opts) := by
  have hb : ns.isEmpty = false := by
    cases ns
    · exact absurd rfl hne
    · rfl
  have hstate := @add_edge_eq_of_some O L W _ s ns ids opts hb hreg
  refine ⟨by rw [hstate], ?_, ?_, ?_⟩
  · rw [HEdge_new_nodes]
    exact canonSet_nodup ids
  · intro x
    rw [HEdge_new_nodes]
    exact mem_canonSet x ids
  · intro id
    rw [hstate]
    exact mgetD_foldl_pushEdge (HEdge.new ids opts) ids s.edges id

/-- Reduction of `get_edge` once the endpoint translation and the adjacency
list of the head id are known. -/
theorem get_edge_eq_found {O L W : Type} [DecidableEq O] {s : HNetwork O L W}
    {qs : List O} {i0 : Nat} {rest : List Nat} {uedges : List (HEdge L W)}
    (hne : qs ≠ []) (hl : lookupIds s.nodes2id qs = some (i0 :: rest))
    (hmg : mget s.redges i0 = some uedges) :
    s.get_edge qs =
      uedges.find?
        (fun e => hedgeEq e (HEdge.new (i0 :: rest) (EdgeOptions.Simple : EdgeOptions L W))) := by
  have hb : qs.isEmpty = false := by
    cases qs
    · exact absurd rfl hne
    · rfl
  unfold HNetwork.get_edge
  simp only [hb, Bool.false_eq_true, if_false, hl, hmg]

/-- **C2** (confirmed).  For a nonempty list `ns` of distinct registered
endpoints translating to ids `ids`, `add_edge` succeeds, and after a publish
`get_edge` queried with any permutation of the endpoints returns an edge
whose node-id set equals that of the added edge (`canonSet ids`): the edge
is replicated into every participating adjacency list, so the lookup
succeeds through whichever endpoint heads the query. -/
theorem C2_add_edge_get_edge_any_endpoint {O L W : Type} [DecidableEq O]
    (s : HNetwork O L W) (ns : List O) (ids : List Nat) (opts : EdgeOptions L W)
    (hne : ns ≠ []) (hnd : ns.Nodup)
    (hreg : lookupIds s.nodes2id ns = some ids) :
    (s.add_edge ns opts).1 = true ∧
      ∀ qs : List O, qs.Perm ns →
        ((((s.add_edge ns opts).2).update).get_edge qs).map HEdge.nodes =
          some (canonSet ids) := by
  have hb : ns.isEmpty = false := by
    cases ns
    · exact absurd rfl hne
    · rfl
  have hstate := @add_edge_eq_of_some O L W _ s ns ids opts hb hreg
  refine ⟨by rw [hstate], ?_⟩
  intro qs hperm
  have hqne : qs ≠ [] := by
    intro h
    subst h
    exact hne (hperm.symm.eq_nil)
  obtain ⟨q0, qrest, rfl⟩ := List.exists_cons_of_ne_nil hqne
  -- translate the query through the unchanged nodes2id
  have hall : ∀ x ∈ ns, (mget s.nodes2id x).isSome := lookupIds_some_isSome hreg
  have hallq : ∀ x ∈ q0 :: qrest, (mget s.nodes2id x).isSome := fun x hx =>
    hall x (hperm.subset hx)
  have hq : lookupIds s.nodes2id (q0 :: qrest) =
      some ((q0 :: qrest).map (fun x => (mget s.nodes2id x).getD 0)) :=
    lookupIds_of_isSome hallq
  have hids : ids = ns.map (fun x => (mget s.nodes2id x).getD 0) :=
    lookupIds_some_map hreg
  have hpermIds : ((q0 :: qrest).map (fun x => (mget s.nodes2id x).getD 0)).Perm ids := by
    rw [hids]
    exact hperm.map _
  have hcanon : canonSet ((q0 :: qrest).map (fun x => (mget s.nodes2id x).getD 0)) =
      canonSet ids := canonSet_perm hpermIds
  -- the updated store
  have hn2i : (((s.add_edge ns opts).2).update).nodes2id = s.nodes2id := by
    have h1 : (((s.add_edge ns opts).2).update).nodes2id = ((s.add_edge ns opts).2).nodes2id := rfl
    rw [h1, (add_edge_frame s ns opts).1]
  have hred : (((s.add_edge ns opts).2).update).redges = ((s.add_edge ns opts).2).edges := rfl
  have hq2 : lookupIds (((s.add_edge ns opts).2).update).nodes2id (q0 :: qrest) =
      some ((mget s.nodes2id q0).getD 0 ::
        qrest.map (fun x => (mget s.nodes2id x).getD 0)) := by
    rw [hn2i, hq, List.map_cons]
  have hedges : ((s.add_edge ns opts).2).edges =
      ids.foldl (fun es id => pushEdge es (HEdge.new ids opts) id) s.edges := by
    rw [hstate]
  simp only [List.map_cons] at hcanon
  -- the adjacency list at the head id contains the pushed copy
  have hq0ns : q0 ∈ ns := hperm.subset (List.mem_cons_self q0 qrest)
  have hi0 : (mget s.nodes2id q0).getD 0 ∈ ids := by
    rw [hids]
    exact List.mem_map_of_mem _ hq0ns
  have hcount : 0 < ids.count ((mget s.nodes2id q0).getD 0) :=
    List.count_pos_iff.2 hi0
  have hadj := mgetD_foldl_pushEdge (HEdge.new ids opts) ids s.edges
    ((mget s.nodes2id q0).getD 0)
  cases hmg : mget
      (ids.foldl (fun es id => pushEdge es (HEdge.new ids opts) id) s.edges)
      ((mget s.nodes2id q0).getD 0) with
  | none =>
    rw [hmg] at hadj
    exfalso
    have hlen := congrArg List.length hadj
    simp only [Option.getD_none, List.length_nil, List.length_append,
      List.length_replicate] at hlen
    omega
  | some uedges =>
    rw [hmg] at hadj
    simp only [Option.getD_some] at hadj
    -- `uedges` contains the pushed hyper-edge, which matches the query key
    have hmem : HEdge.new ids opts ∈ uedges := by
      rw [hadj]
      exact List.mem_append_right _
        (List.mem_replicate.2 ⟨Nat.pos_iff_ne_zero.1 hcount, rfl⟩)
    have hpred : hedgeEq (HEdge.new ids opts)
        (HEdge.new ((mget s.nodes2id q0).getD 0 ::
          qrest.map (fun x => (mget s.nodes2id x).getD 0))
          (EdgeOptions.Simple : EdgeOptions L W)) = true := by
      rw [hedgeEq, decide_eq_true_eq, HEdge_new_nodes, HEdge_new_nodes]
      exact hcanon.symm
    have hmg2 : mget (((s.add_edge ns opts).2).update).redges
        ((mget s.nodes2id q0).getD 0) = some uedges := by
      rw [hred, hedges]
      exact hmg
    rw [get_edge_eq_found hqne hq2 hmg2]
    have hsome : (uedges.find?
        (fun e => hedgeEq e (HEdge.new ((mget s.nodes2id q0).getD 0 ::
          qrest.map (fun x => (mget s.nodes2id x).getD 0))
          (EdgeOptions.Simple : EdgeOptions L W)))).isSome := by
      rw [List.find?_isSome]
      exact ⟨HEdge.new ids opts, hmem, hpred⟩
    obtain ⟨e, he⟩ := Option.isSome_iff_exists.1 hsome
    have hmatch := List.find?_some he
    rw [hedgeEq, decide_eq_true_eq] at hmatch
    rw [he]
    simp only [Option.map]
    rw [hmatch, HEdge_new_nodes]
    exact congrArg some hcanon

/-- **C2, witness**: on the published two-node store, `add_edge [10, 20]`
succeeds and after `update()` the edge is found through the query
`[20, 10]`, which starts from the other endpoint. -/
theorem C2_add_edge_get_edge_any_endpoint_witness :
    ((((HNetwork.new : HNetwork Nat Unit Unit).add_node 10).add_node 20).add_edge
          [10, 20] EdgeOptions.Simple).1 = true ∧
      (((((((HNetwork.new : HNetwork Nat Unit Unit).add_node 10).add_node
              20).add_edge [10, 20] EdgeOptions.Simple).2).update).get_edge
            [20, 10]).map HEdge.nodes = some [0, 1] := by
  have h := C2_add_edge_get_edge_any_endpoint
    (((HNetwork.new : HNetwork Nat Unit Unit).add_node 10).add_node 20)
    [10, 20] [0, 1] EdgeOptions.Simple (by decide) (by decide) (by decide)
  refine ⟨h.1, ?_⟩
  have h2 := h.2 [20, 10] (List.Perm.swap 10 20 [])
  rw [h2]
  decide

theorem add_node_nodes2id {O L W : Type} [DecidableEq O] (s : HNetwork O L W) (u : O) :
    (s.add_node u).nodes2id = minsert s.nodes2id u (msize s.nodes2id % 2 ^ 32) := rfl

theorem add_node_id2nodes {O L W : Type} [DecidableEq O] (s : HNetwork O L W) (u : O) :
    (s.add_node u).id2nodes = minsert s.id2nodes (msize s.nodes2id % 2 ^ 32) u := rfl

/-- Registering a duplicate-free list of at most `2 ^ 32` objects on the
fresh store produces exactly the mappings `obj i ↦ i` and `i ↦ obj i`
(listed most recent first). -/
theorem addAll_maps {O L W : Type} [DecidableEq O] :
    ∀ us : List O, us.Nodup → us.length ≤ 2 ^ 32 →
      (us.foldl HNetwork.add_node (HNetwork.new : HNetwork O L W)).nodes2id =
          (us.zip (List.range us.length)).reverse ∧
        (us.foldl HNetwork.add_node (HNetwork.new : HNetwork O L W)).id2nodes =
          ((List.range us.length).zip us).reverse := by
  intro us
  induction us using List.reverseRecOn with
  | nil =>
    intro _ _
    exact ⟨rfl, rfl⟩
  | append_singleton us2 u ih =>
    intro hnd hlen
    have hnd0 := List.nodup_append.1 hnd
    have hnotmem : u ∉ us2 := fun hmem => hnd0.2.2 hmem (List.mem_singleton_self u)
    have hlen1 : us2.length + 1 ≤ 2 ^ 32 := by simpa using hlen
    obtain ⟨h1, h2⟩ := ih hnd0.1 (by omega)
    rw [List.foldl_append, List.foldl_cons, List.foldl_nil]
    have hsize :
        msize (us2.foldl HNetwork.add_node (HNetwork.new : HNetwork O L W)).nodes2id =
          us2.length := by
      rw [h1, msize]
      simp [List.length_zip]
    have huid :
        msize (us2.foldl HNetwork.add_node (HNetwork.new : HNetwork O L W)).nodes2id %
          2 ^ 32 = us2.length := by
      rw [hsize]
      exact Nat.mod_eq_of_lt (by omega)
    have hlen2 : (us2 ++ [u]).length = us2.length + 1 := by simp
    constructor
    · have hmrem :
          mremove (us2.foldl HNetwork.add_node (HNetwork.new : HNetwork O L W)).nodes2id
            u = (us2.foldl HNetwork.add_node (HNetwork.new : HNetwork O L W)).nodes2id := by
        apply mremove_eq_self
        rw [h1, List.map_reverse, List.map_fst_zip _ _ (by simp)]
        simpa using hnotmem
      rw [add_node_nodes2id, huid]
      simp only [minsert]
      rw [hmrem, h1, hlen2, List.range_succ, List.zip_append (by simp),
        List.reverse_append]
      simp
    · have hmrem2 :
          mremove (us2.foldl HNetwork.add_node (HNetwork.new : HNetwork O L W)).id2nodes
            us2.length =
            (us2.foldl HNetwork.add_node (HNetwork.new : HNetwork O L W)).id2nodes := by
        apply mremove_eq_self
        rw [h2, List.map_reverse, List.map_fst_zip _ _ (by simp)]
        simp
      rw [add_node_id2nodes, huid]
      simp only [minsert]
      rw [hmrem2, h2, hlen2, List.range_succ, List.zip_append (by simp),
        List.reverse_append]
      simp

theorem mem_zip_range {O : Type} (us : List O) (u : O) (uid : Nat) :
    ((u, uid) ∈ us.zip (List.range us.length)) ↔
      ∃ h : uid < us.length, us.get ⟨uid, h⟩ = u := by
  constructor
  · intro h
    rw [List.mem_iff_getElem] at h
    obtain ⟨i, hi, hget⟩ := h
    have hlen : i < us.length := by
      simpa [List.length_zip, List.length_range] using hi
    rw [List.getElem_zip, Prod.mk.injEq] at hget
    obtain ⟨ha, hb⟩ := hget
    have hb2 : i = uid := by simpa [List.getElem_range] using hb
    subst hb2
    exact ⟨hlen, by simpa [List.get_eq_getElem] using ha⟩
  · rintro ⟨h, rfl⟩
    rw [List.mem_iff_getElem]
    refine ⟨uid, by simp [List.length_zip, List.length_range, h], ?_⟩
    rw [List.getElem_zip]
    simp [List.getElem_range, List.get_eq_getElem]

theorem mem_range_zip {O : Type} (us : List O) (u : O) (uid : Nat) :
    ((uid, u) ∈ (List.range us.length).zip us) ↔
      ∃ h : uid < us.length, us.get ⟨uid, h⟩ = u := by
  constructor
  · intro h
    rw [List.mem_iff_getElem] at h
    obtain ⟨i, hi, hget⟩ := h
    have hlen : i < us.length := by
      simpa [List.length_zip, List.length_range] using hi
    rw [List.getElem_zip, Prod.mk.injEq] at hget
    obtain ⟨ha, hb⟩ := hget
    have ha2 : i = uid := by simpa [List.getElem_range] using ha
    subst ha2
    exact ⟨hlen, by simpa [List.get_eq_getElem] using hb⟩
  · rintro ⟨h, rfl⟩
    rw [List.mem_iff_getElem]
    refine ⟨uid, by simp [List.length_zip, List.length_range, h], ?_⟩
    rw [List.getElem_zip]
    simp [List.getElem_range, List.get_eq_getElem]

/-- **C5** (corrected).  The claim as stated fails (see
`C5_counterexample`): after a removal, `uid = nodes2id.len()` hands out an
id already in use, and the mappings stop being mutually inverse.  Amended
claim: for runs consisting solely of registrations of pairwise-distinct
objects (no removals) - at most `2 ^ 32` of them, since the id is the map
size narrowed to `u32` - ids are assigned densely and monotonically (the
`i`-th registration gets id `i`), each id is unique, and `nodes2id` /
`id2nodes` are mutually inverse. -/
theorem C5_ids_dense_inverse_without_removal {O L W : Type} [DecidableEq O]
    (us : List O) (hnd : us.Nodup) (hlen : us.length ≤ 2 ^ 32) :
    (∀ i : Fin us.length,
        mget ((us.foldl HNetwork.add_node (HNetwork.new : HNetwork O L W)).nodes2id)
            (us.get i) = some i.val ∧
          mget ((us.foldl HNetwork.add_node (HNetwork.new : HNetwork O L W)).id2nodes)
            i.val = some (us.get i)) ∧
      ∀ (u : O) (uid : Nat),
        mget ((us.foldl HNetwork.add_node (HNetwork.new : HNetwork O L W)).nodes2id) u =
            some uid ↔
          mget ((us.foldl HNetwork.add_node (HNetwork.new : HNetwork O L W)).id2nodes)
            uid = some u := by
  obtain ⟨h1, h2⟩ := @addAll_maps O L W _ us hnd hlen
  have hk1 : (((us.zip (List.range us.length)).reverse).map Prod.fst).Nodup := by
    rw [List.map_reverse, List.map_fst_zip _ _ (by simp)]
    exact List.nodup_reverse.2 hnd
  have hk2 : ((((List.range us.length).zip us).reverse).map Prod.fst).Nodup := by
    rw [List.map_reverse, List.map_fst_zip _ _ (by simp)]
    exact List.nodup_reverse.2 (List.nodup_range us.length)
  constructor
  · intro i
    constructor
    · rw [h1, mget_eq_some_iff_mem hk1, List.mem_reverse, mem_zip_range]
      exact ⟨i.isLt, rfl⟩
    · rw [h2, mget_eq_some_iff_mem hk2, List.mem_reverse, mem_range_zip]
      exact ⟨i.isLt, rfl⟩
  · intro u uid
    rw [h1, h2, mget_eq_some_iff_mem hk1, mget_eq_some_iff_mem hk2,
      List.mem_reverse, List.mem_reverse, mem_zip_range, mem_range_zip]

/-- **C5, witness**: registering `[10, 20, 30]` gives node `20` id 1, and
`30 ↦ 2` holds in `nodes2id` exactly when `2 ↦ 30` holds in `id2nodes`. -/
theorem C5_ids_dense_inverse_witness :
    mget (([10, 20, 30].foldl HNetwork.add_node
        (HNetwork.new : HNetwork Nat Unit Unit)).nodes2id) 20 = some 1 ∧
      (mget (([10, 20, 30].foldl HNetwork.add_node
            (HNetwork.new : HNetwork Nat Unit Unit)).nodes2id) 30 = some 2 ↔
        mget (([10, 20, 30].foldl HNetwork.add_node
            (HNetwork.new : HNetwork Nat Unit Unit)).id2nodes) 2 = some 30) := by
  have h := @C5_ids_dense_inverse_without_removal Nat Unit Unit _
    [10, 20, 30] (by decide) (by norm_num)
  exact ⟨(h.1 ⟨1, by norm_num⟩).1, h.2 30 2⟩

/-- **C1** (corrected).  The claim as stated fails (see
`C1_counterexample`): `get_edge` and `get_edges` resolve endpoint names
through the write-generation `nodes2id`, so `add_node` and `remove_object`
can change their results before any publish.  Amended claim: `get_object`
(which reads only `rid2nodes`) is unchanged by every listed mutation, and
`get_edge` / `get_edges` are unchanged by every listed mutation that leaves
`nodes2id` untouched - `add_edge`, `remove_edge`, `remove_all_edges` and
`update_node`; readers never observe a write-generation edge mutation. -/
theorem C1_readers_frame_amended {O L W : Type} [DecidableEq O] (s : HNetwork O L W) :
    (∀ (u : O) (uid : Nat), (s.add_node u).get_object uid = s.get_object uid) ∧
      (∀ (ns : List O) (opts : EdgeOptions L W) (uid : Nat),
        ((s.add_edge ns opts).2).get_object uid = s.get_object uid) ∧
      (∀ (u : O) (uid : Nat), (s.update_node u).get_object uid = s.get_object uid) ∧
      (∀ uid : Nat, (s.remove_all_edges).get_object uid = s.get_object uid) ∧
      (∀ (ns : List O) (r : Option (HEdge L W)) (s1 : HNetwork O L W) (uid : Nat),
        s.remove_edge ns = .ok (r, s1) → s1.get_object uid = s.get_object uid) ∧
      (∀ (u : O) (b : Bool) (s1 : HNetwork O L W) (uid : Nat),
        s.remove_object u = .ok (b, s1) → s1.get_object uid = s.get_object uid) ∧
      (∀ (ns : List O) (opts : EdgeOptions L W) (qs : List O),
        ((s.add_edge ns opts).2).get_edge qs = s.get_edge qs) ∧
      (∀ (ns : List O) (opts : EdgeOptions L W) (u : O),
        ((s.add_edge ns opts).2).get_edges u = s.get_edges u) ∧
      (∀ (u : O) (qs : List O), (s.update_node u).get_edge qs = s.get_edge qs) ∧
      (∀ (u v : O), (s.update_node u).get_edges v = s.get_edges v) ∧
      (∀ qs : List O, (s.remove_all_edges).get_edge qs = s.get_edge qs) ∧
      (∀ u : O, (s.remove_all_edges).get_edges u = s.get_edges u) ∧
      (∀ (ns : List O) (r : Option (HEdge L W)) (s1 : HNetwork O L W) (qs : List O),
        s.remove_edge ns = .ok (r, s1) → s1.get_edge qs = s.get_edge qs) ∧
      (∀ (ns : List O) (r : Option (HEdge L W)) (s1 : HNetwork O L W) (u : O),
        s.remove_edge ns = .ok (r, s1) → s1.get_edges u = s.get_edges u) := by
  refine ⟨?_, ?_, ?_, ?_, ?_, ?_, ?_, ?_, ?_, ?_, ?_, ?_, ?_, ?_⟩
  · intro u uid
    exact get_object_congr (add_node_frame s u).2 uid
  · intro ns opts uid
    exact get_object_congr (add_edge_frame s ns opts).2.2.1 uid
  · intro u uid
    exact get_object_congr (update_node_frame s u).2.2.1 uid
  · intro uid
    exact get_object_congr (remove_all_edges_frame s).2.2.1 uid
  · intro ns r s1 uid h
    exact get_object_congr (remove_edge_ok_frame h).2.2 uid
  · intro u b s1 uid h
    exact get_object_congr (remove_object_ok_frame h).2 uid
  · intro ns opts qs
    exact get_edge_congr (add_edge_frame s ns opts).1 (add_edge_frame s ns opts).2.1 qs
  · intro ns opts u
    exact get_edges_congr (add_edge_frame s ns opts).1 (add_edge_frame s ns opts).2.1 u
  · intro u qs
    exact get_edge_congr (update_node_frame s u).1 (update_node_frame s u).2.1 qs
  · intro u v
    exact get_edges_congr (update_node_frame s u).1 (update_node_frame s u).2.1 v
  · intro qs
    exact get_edge_congr (remove_all_edges_frame s).1 (remove_all_edges_frame s).2.1 qs
  · intro u
    exact get_edges_congr (remove_all_edges_frame s).1 (remove_all_edges_frame s).2.1 u
  · intro ns r s1 qs h
    exact get_edge_congr (remove_edge_ok_frame h).1 (remove_edge_ok_frame h).2.1 qs
  · intro ns r s1 u h
    exact get_edges_congr (remove_edge_ok_frame h).1 (remove_edge_ok_frame h).2.1 u

/-- **C1, witness**: the amended frame property applied to the published
two-node store `netAB`, with the `remove_edge` hypothesis discharged at the
concrete successful removal of the edge `[10, 20]`. -/
theorem C1_readers_frame_witness :
    ((netAB.add_node 99).get_object 0 = netAB.get_object 0) ∧
      ((okStateD netAB (netAB.remove_edge [10, 20])).get_edges 20 = netAB.get_edges 20) ∧
      ((netAB.remove_all_edges).get_edge [10, 20] = netAB.get_edge [10, 20]) := by
  have h := C1_readers_frame_amended netAB
  refine ⟨h.1 99 0, ?_, h.2.2.2.2.2.2.2.2.2.2.1 [10, 20]⟩
  cases hre : netAB.remove_edge [10, 20] with
  | error e => rfl
  | ok pr =>
    exact h.2.2.2.2.2.2.2.2.2.2.2.2.2 [10, 20] pr.1 pr.2 20 hre

/-- **C10, witness**: one registered node `10` (id 0), `add_edge [10, 10]`
succeeds, stores node set `[0]`, and appends two copies to the adjacency
list of id 0. -/
theorem C10_duplicate_endpoints_witness :
    ((((HNetwork.new : HNetwork Nat Unit Unit).add_node 10).add_edge [10, 10]
          EdgeOptions.Simple).1 = true) ∧
      (mget ((((HNetwork.new : HNetwork Nat Unit Unit).add_node 10).add_edge [10, 10]
              EdgeOptions.Simple).2).edges 0).getD [] =
        [HEdge.new [0, 0] EdgeOptions.Simple, HEdge.new [0, 0] EdgeOptions.Simple] := by
  have h := C10_duplicate_endpoints ((HNetwork.new : HNetwork Nat Unit Unit).add_node 10)
    [10, 10] [0, 0] EdgeOptions.Simple (by decide) (by decide) (by decide)
  refine ⟨h.1, ?_⟩
  have h2 := h.2.2.2 0
  rw [h2]
  decide

/-- **C4, counterexample.**  On the empty store, `add_node 5` assigns id 0 (as
`nodes2id` records), yet `get_object 0` immediately afterwards returns `none`
rather than `some 5`: `get_object` reads the published `rid2nodes`, so the
claim as stated, with no publish between registration and lookup, is false. -/
theorem C4_counterexample :
    mget ((HNetwork.new : HNetwork Nat Unit Unit).add_node 5).nodes2id 5 = some 0 ∧
      ((HNetwork.new : HNetwork Nat Unit Unit).add_node 5).get_object 0 = none := by
  exact ⟨rfl, rfl⟩

/-- **C4** (corrected).  Amended claim: for every store and object,
`add_node(obj)` followed by a publish (`update()`) makes `get_object(id)`
return `obj`, where `id` is the id assigned by that registration
(`nodes2id.len() as u32`, i.e. `msize s.nodes2id % 2 ^ 32`). -/
theorem C4_add_node_publish_get_object {O L W : Type} [DecidableEq O]
    (s : HNetwork O L W) (u : O) :
    ((s.add_node u).update).get_object (msize s.nodes2id % 2 ^ 32) = some u := by
  unfold HNetwork.get_object HNetwork.update HNetwork.add_node
  simp [mget_minsert]

/-- **C3, evaluation at the failing input.**  Nodes `10` (id 0) and `20`
(id 1) are registered and an edge over both is added but not yet published;
then `remove_object 10` runs and the store is published.  Afterwards
`get_edges 10` is absent and node `10` is deregistered from both mappings,
but the adjacency list of node `20` still contains the hyper-edge whose
node-id set `[0, 1]` references the removed node: the cascade consulted the
stale read generation, contradicting the claim that removal purges every
incident edge from every other endpoint. -/
theorem C3_stale_cascade_eval :
    c3final.get_edges 10 = none ∧
      mget c3final.nodes2id 10 = none ∧
      mget c3final.id2nodes 0 = none ∧
      ((c3final.get_edges 20).getD []).map HEdge.nodes = [[0, 1]] := by
  exact ⟨rfl, rfl, rfl, rfl⟩

/-- **C9, evaluation at the failing input.**  With node `10` registered
(id 0) and `remove_all_edges` having cleared the write generation,
`remove_edge [10]` reaches `all_edges.get_mut(&id).expect(..)` with no entry
for id 0 and panics (modelled as `.error`), instead of returning an absent
result as the claim requires. -/
theorem C9_remove_edge_panic_eval :
    mget c9net.nodes2id 10 = some 0 ∧
      c9net.remove_edge [10] = .error "error on get_mut of all_edges" := by
  exact ⟨rfl, rfl⟩

/-- **C6, evaluation at the failing input.**  The evaluate / gather /
broadcast section of `explore_ga_distributed_mpi` (genetic.rs lines 216-388)
is inside a block comment, so the compiled loop never computes a fitness,
never sets `flag` and never updates the best record.  Starting the active
loop with `generation_num = 10`, the run exits at generation 10 with
`flag = false` and `best_generation = 0` - not at generation 3 as the claim
requires when fitness 1.0 is reached there (fitness does not even enter the
active state space). -/
theorem C6_flag_never_set_eval :
    gaLoop 10 11 { generation := 0, flag := false, bestGeneration := 0 } =
      some { generation := 10, flag := false, bestGeneration := 0 } := by
  decide

/-- **C8, evaluation at the failing input.**  For population size 7 and 3
processes the dispatch loop indexes shard `i` from `i * (7 / 3)`
(genetic.rs line 174), so the shards it sends are `[0,1,2]`, `[2,3]`,
`[4,5]`: individual 2 is dispatched twice and individual 6 never, whereas
the claimed exclusive-prefix-sum partition would send `[0,1,2]`, `[3,4]`,
`[5,6]`. -/
theorem C8_dispatch_eval :
    dispatchIndices 7 3 = [[0, 1, 2], [2, 3], [4, 5]] ∧
      specDispatchIndices 7 3 = [[0, 1, 2], [3, 4], [5, 6]] ∧
      dispatchIndices 7 3 ≠ specDispatchIndices 7 3 := by
  decide

/-- **C1, counterexample.**  Two pre-publish mutations change what the
readers observe.  (a) On the published two-node store `netAB`,
`remove_object 10` makes `get_edges 10` flip from present to absent with the
read generation untouched.  (b) On `netSelfRemoved` (id 0 unbound, stale
published self-loop), `add_node 8` re-binds id 0 and `get_edges 8` flips
from absent to the stale list.  Readers resolve names through the
write-generation `nodes2id`, so they are not insulated from `add_node` and
`remove_object`. -/
theorem C1_counterexample :
    ((okStateD netAB (netAB.remove_object 10)).get_edges 10 ≠ netAB.get_edges 10) ∧
      (okStateD netAB (netAB.remove_object 10)).redges = netAB.redges ∧
      ((netSelfRemoved.add_node 8).get_edges 8 ≠ netSelfRemoved.get_edges 8) ∧
      (netSelfRemoved.add_node 8).redges = netSelfRemoved.redges := by
  decide

/-- **C5, counterexample.**  After `add_node 10`, `add_node 20`,
`remove_object 10`, `add_node 30`, the id assignment `uid = nodes2id.len()`
hands out id 1 a second time: nodes `20` and `30` are both registered with
id 1 and `id2nodes` maps 1 to `30`, so ids are reused after a removal and
the two mappings are no longer mutually inverse bijections. -/
theorem C5_counterexample :
    mget c5net.nodes2id 20 = some 1 ∧
      mget c5net.nodes2id 30 = some 1 ∧
      mget c5net.id2nodes 1 = some 30 := by
  decide

end KrABMaga
